import Mathlib

/-
Verification of the libbitcoin-database storage engine specification
against a shallow embedding of the sources.

Embedded components:
- the slab hash table (src/include/bitcoin/database/impl/slab_hash_table.ipp):
  chain-head prepend `store`, first-match `find`, first-match `unlink`;
- the transaction database (src/src/databases/transaction_database.cpp):
  `get_output`, `spend`, `store`, `pool`, with the unspent-output cache;
- the transaction result (src/src/result/transaction_result.cpp): `is_spent`;
- the data-base coordinator (src/src/data_base.cpp): `push` of a pooled
  transaction, `pop` height verification, and the parallel per-bucket
  transaction push partition;
- the memory-mapped file (src/src/database/mmfile.cpp): `reserve`/`resize`.

Machine integers are modelled as `Nat` with explicit `% 2 ^ 64` where the
source arithmetic can wrap (size_t); sentinels keep their source values.
-/

namespace LibbitcoinDb

/-- Value of `max_size_t` (64-bit size_t maximum), the non-fork query
sentinel. -/
def maxSize : Nat := 2 ^ 64 - 1

/-- Value of `max_uint32`, used as `output::validation::not_spent` and as
`point::null_index`. -/
def maxUint32 : Nat := 2 ^ 32 - 1

/-- Value of `max_uint16`, the `transaction_result::unconfirmed` position
sentinel. -/
def maxUint16 : Nat := 2 ^ 16 - 1

/-! ## Slab hash table (slab_hash_table.ipp)

A slab row is `[ key | next_offset:8 | payload ]`.  The model keeps the
arena as a list of rows; the row allocated i-th lives at file offset `i + 1`,
so that offset `0` is exactly the table's empty sentinel
(`slab_hash_table::not_found = 0`).  Keys and payloads are modelled as
natural numbers (a key is read as a little-endian unsigned integer by
`remainder`, so `bucket_index` is key mod buckets). -/

/-- Slab row node: `[ key | next | value ]` as written by
`slab_row::create` and `slab_row::link`. -/
structure SlabRow where
  key : Nat
  next : Nat
  value : Nat
  deriving Repr, DecidableEq

/-- State of one slab hash table: the bucket-head array of
`slab_hash_table_header` plus the slab arena of `slab_manager`. -/
structure SlabTable where
  /-- Number of buckets fixed at create time (`header_.size()`). -/
  buckets : Nat
  /-- Bucket head values; meaningful at indexes below `buckets`.  The empty
  sentinel is `0`. -/
  heads : Nat → Nat
  /-- Allocated rows; the row at list index `i` is at file offset `i + 1`. -/
  slabs : List SlabRow

/-- Freshly created table: every bucket head holds the empty sentinel. -/
def SlabTable.empty (buckets : Nat) : SlabTable :=
  ⟨buckets, fun _ => 0, []⟩

/-- Mirrors `slab_hash_table::bucket_index`: `remainder(key, header_.size())`
computes the key (read little-endian) modulo the bucket count. -/
def SlabTable.bucketIndex (t : SlabTable) (key : Nat) : Nat :=
  key % t.buckets

/-- Mirrors `slab_hash_table::read_bucket_value`. -/
def SlabTable.readBucketValue (t : SlabTable) (key : Nat) : Nat :=
  t.heads (t.bucketIndex key)

/-- Row stored at a file offset; offset `0` is the empty sentinel and maps
to no row. -/
def SlabTable.rowAt (t : SlabTable) (offset : Nat) : Option SlabRow :=
  if offset = 0 then none else t.slabs[offset - 1]?

/-- Mirrors `slab_hash_table::store`: allocate and populate a new unlinked
slab, link its `next` to the current bucket head, then link the header to
the new slab as the new first.  Returns the allocated row position and the
updated table (the source returns `position + prefix_size`, the payload
offset inside the row). -/
def SlabTable.store (t : SlabTable) (key value : Nat) : Nat × SlabTable :=
  let position := t.slabs.length + 1
  let row : SlabRow := ⟨key, t.readBucketValue key, value⟩
  (position,
    { t with
      slabs := t.slabs ++ [row]
      heads := Function.update t.heads (t.bucketIndex key) position })

/-- Traversal loop of `slab_hash_table::find`: follow `next` links from
`current` until the empty sentinel, returning the payload of the first row
whose key compares equal.  Fuel bounds the traversal (the source relies on
acyclicity, asserted by `BITCOIN_ASSERT(previous != current)`). -/
def SlabTable.findLoop (t : SlabTable) (key : Nat) :
    Nat → Nat → Option Nat
  | 0, _ => none
  | fuel + 1, current =>
    if current = 0 then none
    else
      match t.rowAt current with
      | none => none
      | some item =>
        if item.key = key then some item.value
        else t.findLoop key fuel item.next

/-- Mirrors `slab_hash_table::find`: start from the bucket head and return
the first matching row's payload (the source returns a pointer to it). -/
def SlabTable.find (t : SlabTable) (key : Nat) : Option Nat :=
  t.findLoop key (t.slabs.length + 1) (t.readBucketValue key)

/-- Rows of a bucket chain in traversal order, fuel-bounded. -/
def SlabTable.chainLoop (t : SlabTable) : Nat → Nat → List SlabRow
  | 0, _ => []
  | fuel + 1, current =>
    if current = 0 then []
    else
      match t.rowAt current with
      | none => []
      | some item => item :: t.chainLoop fuel item.next

/-- Payloads of all rows with the given key along its bucket chain, in
traversal order: the list-traversal view used by bip30-style duplicate
recovery. -/
def SlabTable.chainValues (t : SlabTable) (key : Nat) : List Nat :=
  ((t.chainLoop (t.slabs.length + 1) (t.readBucketValue key)).filter
    (fun item => item.key = key)).map SlabRow.value

/-- Rewrites the `next` field of the row at the given offset
(`slab_row::write_next_position` via the two-argument `unlink`). -/
def SlabTable.setNext (t : SlabTable) (offset newNext : Nat) : SlabTable :=
  { t with
    slabs :=
      match t.slabs[offset - 1]? with
      | none => t.slabs
      | some item => t.slabs.set (offset - 1) { item with next := newNext } }

/-- Search loop of `slab_hash_table::unlink` past the first row: returns the
offset of the predecessor of the first matching row together with that
row's `next`, if a match exists. -/
def SlabTable.unlinkLoop (t : SlabTable) (key : Nat) :
    Nat → Nat → Nat → Option (Nat × Nat)
  | 0, _, _ => none
  | fuel + 1, previous, current =>
    if current = 0 then none
    else
      match t.rowAt current with
      | none => none
      | some item =>
        if item.key = key then some (previous, item.next)
        else t.unlinkLoop key fuel current item.next

/-- Mirrors `slab_hash_table::unlink`: if the first row of the bucket chain
has the key, relink the bucket head past it; otherwise walk the chain and
splice the first matching row out of its predecessor.  (With an empty
bucket the source compares against unmapped header bytes; the model treats
that as no match.) -/
def SlabTable.unlink (t : SlabTable) (key : Nat) : Bool × SlabTable :=
  let begin_ := t.readBucketValue key
  match t.rowAt begin_ with
  | none => (false, t)
  | some beginItem =>
    if beginItem.key = key then
      (true,
        { t with
          heads := Function.update t.heads (t.bucketIndex key) beginItem.next })
    else
      match t.unlinkLoop key (t.slabs.length + 1) begin_ beginItem.next with
      | some (previous, newNext) => (true, t.setNext previous newNext)
      | none => (false, t)

/-! ## Transaction database (transaction_database.cpp, transaction_result.cpp)

The transaction record payload is
`[ height:4 | position:2 | state:1 | outputs | inputs | locktime | version ]`
with a per-output mutable `spender_height`.  The record store is modelled at
the hash-table level as an association list in chain-head (most recent
first) order, which is the `find` order proved for the slab table above. -/

/-- Transaction states of `transaction_state` (transaction_result.hpp). -/
inductive TxState where
  | missing
  | invalid
  | pooled
  | indexed
  | confirmed
  deriving Repr, DecidableEq

/-- Persisted output: mutable `spender_height` plus constant value (the
constant script is irrelevant to the claims and omitted). -/
structure TxOutput where
  spenderHeight : Nat
  value : Nat
  deriving Repr, DecidableEq

/-- An output point `(hash, index)`; the hash digest is modelled as its
little-endian numeric value. -/
structure OutPoint where
  hash : Nat
  index : Nat
  deriving Repr, DecidableEq

/-- Mirrors `point::is_null`: index is `null_index` (`max_uint32`) and the
hash is the null hash (all zero bytes). -/
def OutPoint.isNull (p : OutPoint) : Prop :=
  p.index = maxUint32 ∧ p.hash = 0

instance (p : OutPoint) : Decidable p.isNull := by
  unfold OutPoint.isNull
  infer_instance

/-- Transaction as passed to `store`: hash, output values, and input
previous outputs (scripts, sequence, locktime, version are constant data
irrelevant to the claims). -/
structure Tx where
  hash : Nat
  outputValues : List Nat
  inputs : List OutPoint
  deriving Repr, DecidableEq

/-- Stored transaction record: the atomic `(height, position, state)` triple
followed by the outputs. -/
structure TxRecord where
  height : Nat
  position : Nat
  state : TxState
  outputs : List TxOutput
  deriving Repr, DecidableEq

/-- Modelled from the spec: entry of the unspent-output cache
(`unspent_outputs`, not under src/).  Per section 4.4 the cache is a bounded
LRU mapping `output_point -> cached_output` that "contains only unspent,
confirmed outputs", so an entry records the confirmation height of its
transaction; the LRU capacity bound is not modelled. -/
structure CacheEntry where
  height : Nat
  deriving Repr, DecidableEq

/-- State of the transaction database: the hash-keyed record list in
chain-head (most recent first) order plus the unspent-output cache. -/
structure TxDb where
  records : List (Nat × TxRecord)
  cache : List (OutPoint × CacheEntry)
  deriving Repr, DecidableEq

/-- Mirrors `lookup_map_.find(hash)` followed by the metadata read of
`transaction_database::get`: the first (most recently stored) record for
the hash. -/
def TxDb.findRec (db : TxDb) (hash : Nat) : Option TxRecord :=
  (db.records.find? (fun r => r.1 = hash)).map (·.2)

/-- Modelled from the spec: `unspent_outputs::populate(point, fork_height)`
is not under src/.  Per section 4.4 a hit requires a cached entry for the
outpoint, and by I6 the hit must be consistent with the queried fork
height, so the entry's confirmation height must not exceed it. -/
def TxDb.cachePopulate (db : TxDb) (point : OutPoint) (forkHeight : Nat) :
    Bool :=
  match (db.cache.find? (fun e => e.1 = point)).map (·.2) with
  | some entry => decide (entry.height ≤ forkHeight)
  | none => false

/-- Modelled from the spec: `unspent_outputs::add(tx, height, confirmed)`
is not under src/.  The cache holds only confirmed outputs, so a
non-confirming add stores nothing; a confirming add caches every output of
the transaction at its confirmation height. -/
def TxDb.cacheAdd (db : TxDb) (tx : Tx) (height : Nat) (confirming : Bool) :
    TxDb :=
  if confirming then
    { db with
      cache :=
        ((List.range tx.outputValues.length).map
          (fun i => (OutPoint.mk tx.hash i, CacheEntry.mk height))) ++
          db.cache }
  else db

/-- Modelled from the spec: `unspent_outputs::remove(point)` evicts the
outpoint from the cache. -/
def TxDb.cacheRemove (db : TxDb) (point : OutPoint) : TxDb :=
  { db with cache := db.cache.filter (fun e => e.1 ≠ point) }

/-- Modelled from the spec: `chain::output::validation::spent(fork_height,
...)` is an external collaborator.  Per section 4.4 step 7 and I5, an
output is spent relative to a fork height when its spender height is not
the `not_spent` sentinel and does not exceed the fork height. -/
def outputSpent (spenderHeight forkHeight : Nat) : Bool :=
  spenderHeight ≠ maxUint32 && spenderHeight ≤ forkHeight

/-- Mirrors `transaction_result::is_spent(fork_height)`: the tx counts as
confirmed when indexed with `allow_indexed = (fork_height != max_size_t)`,
or confirmed at a height at or below the fork height; it is spent when
confirmed and every output is spent. -/
def TxRecord.isSpent (r : TxRecord) (forkHeight : Nat) : Bool :=
  let allowIndexed := forkHeight ≠ maxSize
  let confirmed :=
    (r.state = TxState.indexed ∧ allowIndexed) ∨
    (r.state = TxState.confirmed ∧ r.height ≤ forkHeight)
  if ¬confirmed then false
  else r.outputs.all (fun o => outputSpent o.spenderHeight forkHeight)

/-- Confirmation test of `transaction_database::get_output` (lines
224-227): `require_confirmed = (fork_height != max_size_t)`, and the record
is confirmed when indexed and confirmation is required, or confirmed at a
height at or below the fork height. -/
def getOutputConfirmed (state : TxState) (height forkHeight : Nat) : Bool :=
  let requireConfirmed := forkHeight ≠ maxSize
  decide ((state = TxState.indexed ∧ requireConfirmed) ∨
    (state = TxState.confirmed ∧ height ≤ forkHeight))

/-- Mirrors `transaction_database::get_output(point, fork_height)`: null
point is false; a cache hit is true; otherwise find the tx, apply the
genesis (height zero) rule, guarantee confirmation when a finite fork
height requires it, and succeed exactly when the output index is in
range.  The model returns the population success boolean. -/
def TxDb.getOutput (db : TxDb) (point : OutPoint) (forkHeight : Nat) :
    Bool :=
  if point.isNull then false
  else if db.cachePopulate point forkHeight then true
  else
    match db.findRec point.hash with
    | none => false
    | some r =>
      if r.height = 0 then false
      else
        let requireConfirmed := forkHeight ≠ maxSize
        if requireConfirmed ∧ ¬(getOutputConfirmed r.state r.height
            forkHeight = true) then false
        else
          match r.outputs[point.index]? with
          | none => false
          | some _ => true

/-- Replaces the first record stored for the hash (the record `find`
returns) by its image under the update. -/
def updateFirstRec (records : List (Nat × TxRecord)) (hash : Nat)
    (f : TxRecord → TxRecord) : List (Nat × TxRecord) :=
  match records with
  | [] => []
  | (h, r) :: rest =>
    if h = hash then (h, f r) :: rest
    else (h, r) :: updateFirstRec rest hash f

/-- Mirrors `transaction_database::spend(point, spender_height)`: null
points succeed without any effect; a true spend first evicts the outpoint
from the cache; the target tx must exist, be confirmed at or below the
spender height, and contain the output index; then the output's
`spender_height` field is rewritten in place. -/
def TxDb.spend (db : TxDb) (point : OutPoint) (spenderHeight : Nat) :
    Bool × TxDb :=
  if point.isNull then (true, db)
  else
    let db1 := if spenderHeight ≠ maxUint32 then db.cacheRemove point else db
    match db1.findRec point.hash with
    | none => (false, db1)
    | some r =>
      if ¬(r.state = TxState.confirmed ∧ r.height ≤ spenderHeight) then
        (false, db1)
      else
        match r.outputs[point.index]? with
        | none => (false, db1)
        | some o =>
          (true,
            { db1 with
              records := updateFirstRec db1.records point.hash
                (fun r0 =>
                  { r0 with
                    outputs := r0.outputs.set point.index
                      { o with spenderHeight := spenderHeight } }) })

/-- Mirrors `transaction_database::confirm(offset, height, position,
state)` at the hash level: atomically rewrite the metadata triple of the
record (offset addressing is represented by the record's key). -/
def TxDb.confirmRec (db : TxDb) (hash : Nat) (height position : Nat)
    (state : TxState) : TxDb :=
  { db with
    records := updateFirstRec db.records hash
      (fun r =>
        { r with
          height := height
          position := position
          state := state }) }

/-- Mirrors `transaction_database::store(tx, height, position, state)`.
When confirming, each input's previous output is spent at the block height
first; an already-stored tx (nonempty `validation.offset`, represented
here by presence under its hash) is promoted in place via `confirm` after
refreshing the cache.  Otherwise a new record is written with the chosen
triple and the cache add is applied (a no-op unless confirming). -/
def TxDb.storeTx (db : TxDb) (tx : Tx) (height position : Nat)
    (state : TxState) : Bool × TxDb :=
  let confirming := state = TxState.confirmed
  let spendAll :=
    tx.inputs.foldl
      (fun acc input =>
        if acc.1 then (acc.2.spend input height) else acc)
      (true, db)
  if confirming then
    if spendAll.1 then
      match spendAll.2.findRec tx.hash with
      | some _ =>
        (true, (spendAll.2.cacheAdd tx height true).confirmRec tx.hash
          height position state)
      | none =>
        let newRec : TxRecord :=
          ⟨height, position, state,
            tx.outputValues.map (fun v => ⟨maxUint32, v⟩)⟩
        (true,
          { (spendAll.2.cacheAdd tx height true) with
            records := (tx.hash, newRec) ::
              (spendAll.2.cacheAdd tx height true).records })
    else (false, spendAll.2)
  else
    let newRec : TxRecord :=
      ⟨height, position, state,
        tx.outputValues.map (fun v => ⟨maxUint32, v⟩)⟩
    (true,
      { (db.cacheAdd tx height false) with
        records := (tx.hash, newRec) :: (db.cacheAdd tx height false).records })

/-! ## Data-base coordinator (data_base.cpp)

Write sequencing (begin_write / end_write over the flush-lock sentinel),
the pooled-transaction push with its unspent-duplicate preflight, and the
block/header pop with its top-height verification.  Address indexing
(spends, history, stealth) is disabled in this model
(`settings_.index_addresses = false`), matching the optional-index
configuration; the address-index databases are out of the modelled core. -/

/-- Error codes surfaced by the coordinator (error.hpp names). -/
inductive DbCode where
  | success
  | operation_failed
  | empty_block
  | store_block_invalid_height
  | store_block_missing_parent
  | unspent_duplicate
  deriving Repr, DecidableEq

/-- Modelled from the spec: the sentinel `rule_fork::unverified` (an
external collaborator) used as the forks value when a tx is demoted to the
pool; its concrete value is immaterial to the claims. -/
def ruleForkUnverified : Nat := maxUint32

/-- Mirrors `transaction_database::pool(tx)`: unspend every input's
previous output, then rewrite the metadata triple to
`(unverified, unconfirmed, pooled)`. -/
def TxDb.pool (db : TxDb) (tx : Tx) : Bool × TxDb :=
  let spendAll :=
    tx.inputs.foldl
      (fun acc input =>
        if acc.1 then acc.2.spend input maxUint32 else acc)
      (true, db)
  if spendAll.1 then
    (true, spendAll.2.confirmRec tx.hash ruleForkUnverified maxUint16
      TxState.pooled)
  else (false, spendAll.2)

/-- Entry of the block database as used by pop: the header hash and the
transactions rehydrated from the persisted transaction offsets
(`to_transactions`). -/
structure BlockEntry where
  hash : Nat
  txs : List Tx
  deriving Repr, DecidableEq

/-- Coordinator state: the transaction database, the block and header
indexes (entry at list position `h` is the block at height `h`), and the
flush-lock sentinel of the store. -/
structure DataBase where
  txdb : TxDb
  blockIndex : List BlockEntry
  headerIndex : List BlockEntry
  flushLock : Bool
  deriving Repr, DecidableEq

/-- Mirrors `store::begin_write`: create the flush-lock sentinel (sentinel
file I/O is modelled as succeeding). -/
def DataBase.beginWrite (db : DataBase) : DataBase :=
  { db with flushLock := true }

/-- Mirrors `store::end_write`: delete the flush-lock sentinel. -/
def DataBase.endWrite (db : DataBase) : DataBase :=
  { db with flushLock := false }

/-- Index selector: the block index (`block_index = true`) or the header
index. -/
def DataBase.indexOf (db : DataBase) (blockIndex : Bool) : List BlockEntry :=
  if blockIndex then db.blockIndex else db.headerIndex

/-- Mirrors `block_database::top(out_height, block_index)`: the height of
the last indexed entry, or failure on an empty index. -/
def DataBase.top (db : DataBase) (blockIndex : Bool) : Option Nat :=
  match (db.indexOf blockIndex).length with
  | 0 => none
  | h + 1 => some h

/-- Mirrors `data_base::verify_push(tx)`: an existing tx with the same
hash that is not fully spent (at the default `max_size_t` fork height) is
an unspent duplicate. -/
def DataBase.verifyPushTx (db : DataBase) (tx : Tx) : DbCode :=
  match db.txdb.findRec tx.hash with
  | some r =>
    if ¬r.isSpent maxSize then DbCode.unspent_duplicate else DbCode.success
  | none => DbCode.success

/-- Mirrors `data_base::push(tx, forks)`: preflight `verify_push`, then
`begin_write`, store the tx as pooled with `height = forks` and
`position = unconfirmed`, commit, `end_write`. -/
def DataBase.pushTx (db : DataBase) (tx : Tx) (forks : Nat) :
    DbCode × DataBase :=
  let ec := db.verifyPushTx tx
  if ec ≠ DbCode.success then (ec, db)
  else
    let db1 := db.beginWrite
    let stored := db1.txdb.storeTx tx forks maxUint16 TxState.pooled
    (DbCode.success, { db1 with txdb := stored.2 }.endWrite)

/-- Mirrors `data_base::verify_top(height, block_index)`: success exactly
when `top` succeeds and returns the given height; otherwise
`operation_failed`. -/
def DataBase.verifyTop (db : DataBase) (height : Nat) (blockIndex : Bool) :
    DbCode :=
  match db.top blockIndex with
  | some actual =>
    if actual = height then DbCode.success else DbCode.operation_failed
  | none => DbCode.operation_failed

/-- Mirrors `data_base::pop_transactions(block)` (sequential bucket): pool
every transaction of the block in order, propagating failure. -/
def DataBase.popTransactions (db : TxDb) (txs : List Tx) : Bool × TxDb :=
  txs.foldl
    (fun acc tx => if acc.1 then acc.2.pool tx else acc)
    (true, db)

/-- Mirrors `block_database::unconfirm(height, block_index)` for the top
entry: remove the block from the index. -/
def DataBase.unconfirmTop (db : DataBase) (blockIndex : Bool) : DataBase :=
  if blockIndex then { db with blockIndex := db.blockIndex.dropLast }
  else { db with headerIndex := db.headerIndex.dropLast }

/-- Mirrors `data_base::pop(block, height)` and `pop(header, height)`:
verify the height against the top of the corresponding index, fetch the
entry, `begin_write`, pool the block's transactions, unconfirm the entry,
commit and `end_write`. -/
def DataBase.pop (db : DataBase) (height : Nat) (blockIndex : Bool) :
    DbCode × DataBase :=
  let ec := db.verifyTop height blockIndex
  if ec ≠ DbCode.success then (ec, db)
  else
    match (db.indexOf blockIndex)[height]? with
    | none => (DbCode.operation_failed, db)
    | some entry =>
      let db1 := db.beginWrite
      let popped := DataBase.popTransactions db1.txdb entry.txs
      if ¬popped.1 then
        (DbCode.operation_failed, { db1 with txdb := popped.2 })
      else
        (DbCode.success,
          ({ db1 with txdb := popped.2 }.unconfirmTop blockIndex).endWrite)

/-! ## Parallel per-bucket transaction push (data_base.cpp)

`do_push` dispatches `buckets = min(threads, tx_count)` concurrent calls of
`do_push_transactions(block, height, bucket, buckets)`; each runs the
`push_transactions` loop
`for (position = bucket; position < count; position = ceiling_add(position,
buckets))`, storing the transaction at each visited position with that
position; a join gate fires `handle_do_push_transactions`, which stores the
block header, only after every bucket completes. -/

/-- Mirrors `ceiling_add(left, right)` over size_t: saturating addition at
`max_size_t`. -/
def ceilingAdd (left right : Nat) : Nat :=
  if maxSize - right < left then maxSize else left + right

/-- Position sequence of the `push_transactions` loop from `start`, visiting
positions below `n` and advancing by `ceiling_add` with the given step.
Fuel bounds the iteration; `n` steps suffice for any step of at least 1. -/
def strided (fuel start n step : Nat) : List Nat :=
  match fuel with
  | 0 => []
  | f + 1 =>
    if start < n then start :: strided f (ceilingAdd start step) n step
    else []

/-- Positions processed by bucket `bucket` of `buckets` over a block of `n`
transactions: `bucket, bucket + buckets, bucket + 2 * buckets, ...`
below `n`. -/
def bucketPositions (bucket n buckets : Nat) : List Nat :=
  strided n bucket n buckets

/-- Observable store events of `do_push`: a transaction stored at its block
position, or the block's header record stored. -/
inductive PushEvent where
  | txStore (position : Nat)
  | headerStore
  deriving Repr, DecidableEq

/-- Store-event trace of `do_push` for a block of `n` transactions with the
given thread count: every bucket's transaction stores (serialized in bucket
order; the claims proved about the trace are permutation-invariant), then
the single header store after the join gate. -/
def doPushTrace (n threads : Nat) : List PushEvent :=
  let buckets := min threads n
  ((List.range buckets).flatMap
    (fun b => (bucketPositions b n buckets).map PushEvent.txStore)) ++
    [PushEvent.headerStore]

/-! ## Memory-mapped file (mmfile.cpp) -/

/-- Memory-mapped file state: the mapped logical size (`size_`); the file
handle and mapped address are not observable here.  Arithmetic on sizes is
size_t arithmetic, wrapping modulo `2 ^ 64`. -/
structure MMFile where
  size : Nat
  deriving Repr, DecidableEq

/-- Mirrors `mmfile::resize(new_size)`: truncate the underlying file and
remap (truncation and remap are modelled as succeeding). -/
def MMFile.resize (_f : MMFile) (newSize : Nat) : Bool × MMFile :=
  (true, ⟨newSize⟩)

/-- Mirrors `mmfile::reserve(size)`: keep the mapping when the request
fits, otherwise resize to `size * 3 / 2` computed in size_t arithmetic
(wrapping multiplication, then truncating division). -/
def MMFile.reserve (f : MMFile) (size : Nat) : Bool × MMFile :=
  if size ≤ f.size then (true, f)
  else f.resize (size * 3 % 2 ^ 64 / 2)

/-! ## Helper lemmas -/

/-- Freshly stored row sits at the allocated offset. -/
theorem rowAt_after_store (t : SlabTable) (k v : Nat) :
    (t.store k v).2.rowAt (t.slabs.length + 1) =
      some ⟨k, t.readBucketValue k, v⟩ := by
  simp [SlabTable.store, SlabTable.rowAt, List.getElem?_concat_length]

/-- After a store, the bucket head of the key points at the new row. -/
theorem readBucketValue_after_store (t : SlabTable) (k v : Nat) :
    (t.store k v).2.readBucketValue k = t.slabs.length + 1 := by
  simp [SlabTable.store, SlabTable.readBucketValue, SlabTable.bucketIndex,
    Function.update]

/-- Find after store returns the value just stored: the new row is the
bucket chain head and its key matches first. -/
theorem find_store (t : SlabTable) (k v : Nat) :
    (t.store k v).2.find k = some v := by
  have hrow := rowAt_after_store t k v
  have hlen : (t.store k v).2.slabs.length = t.slabs.length + 1 := by
    simp [SlabTable.store]
  rw [SlabTable.find, readBucketValue_after_store, hlen, SlabTable.findLoop]
  simp [hrow]

/-- Updating the first record for a hash commutes with finding it. -/
theorem find?_updateFirstRec (recs : List (Nat × TxRecord)) (hash : Nat)
    (f : TxRecord → TxRecord) :
    (updateFirstRec recs hash f).find? (fun r => r.1 = hash) =
      (recs.find? (fun r => r.1 = hash)).map (fun p => (p.1, f p.2)) := by
  induction recs with
  | nil => simp [updateFirstRec]
  | cons head rest ih =>
    obtain ⟨h, r⟩ := head
    by_cases hh : h = hash
    · subst hh
      simp [updateFirstRec, List.find?]
    · simp [updateFirstRec, hh, List.find?, ih]

/-- Record-level view of `find?_updateFirstRec` through `TxDb.findRec`. -/
theorem findRec_updateFirstRec (recs : List (Nat × TxRecord))
    (c : List (OutPoint × CacheEntry)) (hash : Nat) (f : TxRecord → TxRecord) :
    TxDb.findRec ⟨updateFirstRec recs hash f, c⟩ hash =
      (TxDb.findRec ⟨recs, c⟩ hash).map f := by
  simp only [TxDb.findRec, find?_updateFirstRec, Option.map_map]
  rfl

/-- Successful spend: with the target found, confirmed at or below the
spender height, and the output index in range, `spend` rewrites exactly
that output's spender height (and evicts the point from the cache unless
unspending). -/
theorem spend_success (db : TxDb) (p : OutPoint) (sh : Nat) (r : TxRecord)
    (o : TxOutput)
    (hnull : ¬p.isNull)
    (hfind : db.findRec p.hash = some r)
    (hstate : r.state = TxState.confirmed)
    (hh : r.height ≤ sh)
    (hout : r.outputs[p.index]? = some o) :
    db.spend p sh =
      (true,
        { records := updateFirstRec db.records p.hash
            (fun r0 =>
              { r0 with outputs := r0.outputs.set p.index ⟨sh, o.value⟩ })
          cache := (if sh ≠ maxUint32 then db.cacheRemove p else db).cache }) := by
  have h1 : (if sh ≠ maxUint32 then db.cacheRemove p else db).findRec p.hash
      = some r := by
    split <;> exact hfind
  have h2 : (if sh ≠ maxUint32 then db.cacheRemove p else db).records
      = db.records := by
    split <;> rfl
  simp only [TxDb.spend, if_neg hnull]
  rw [h1]
  simp [hstate, hh, hout]
  rcases eq_or_ne sh maxUint32 with he | he <;> simp [he, TxDb.cacheRemove]

/-- Count of a position in one bucket's strided position list. -/
theorem strided_count (p step : Nat) (hstep : 1 ≤ step) :
    ∀ fuel start n, n ≤ maxSize → n ≤ start + fuel * step →
      (strided fuel start n step).count p =
        if p < n ∧ start ≤ p ∧ step ∣ (p - start) then 1 else 0 := by
  intro fuel
  induction fuel with
  | zero =>
    intro start n hn hfuel
    simp only [strided, List.count_nil]
    have : ¬(p < n ∧ start ≤ p ∧ step ∣ (p - start)) := by
      rintro ⟨h1, h2, -⟩
      omega
    simp [this]
  | succ f ih =>
    intro start n hn hfuel
    rw [Nat.succ_mul] at hfuel
    by_cases hlt : start < n
    · rw [strided, if_pos hlt]
      have hfuel2 : n ≤ ceilingAdd start step + f * step := by
        unfold ceilingAdd
        split
        · omega
        · omega
      rw [List.count_cons, ih (ceilingAdd start step) n hn hfuel2]
      by_cases hps : p = start
      · subst hps
        have hnot : ¬(p < n ∧ ceilingAdd p step ≤ p ∧
            step ∣ (p - ceilingAdd p step)) := by
          rintro ⟨-, h2, -⟩
          unfold ceilingAdd at h2
          split at h2 <;> omega
        rw [if_neg hnot]
        have hcond : p < n ∧ p ≤ p ∧ step ∣ (p - p) := ⟨hlt, le_refl p, by simp⟩
        rw [if_pos hcond]
        simp
      · have hiff : (p < n ∧ ceilingAdd start step ≤ p ∧
            step ∣ (p - ceilingAdd start step)) ↔
            (p < n ∧ start ≤ p ∧ step ∣ (p - start)) := by
          unfold ceilingAdd
          split
          · constructor
            · rintro ⟨h1, h2, -⟩
              omega
            · rintro ⟨h1, h2, h3⟩
              have hge : step ≤ p - start := by
                refine Nat.le_of_dvd ?_ h3
                omega
              omega
          · constructor
            · rintro ⟨h1, h2, h3⟩
              refine ⟨h1, by omega, ?_⟩
              have : p - start = (p - (start + step)) + step := by omega
              rw [this]
              exact Nat.dvd_add h3 (dvd_refl step)
            · rintro ⟨h1, h2, h3⟩
              have hne : start < p := by omega
              have hge : step ≤ p - start := by
                refine Nat.le_of_dvd ?_ h3
                omega
              refine ⟨h1, by omega, ?_⟩
              have : p - (start + step) = (p - start) - step := by omega
              rw [this]
              exact Nat.dvd_sub' h3 (dvd_refl step)
        rw [if_congr hiff rfl rfl]
        simp [beq_iff_eq, Ne.symm hps]
    · rw [strided, if_neg hlt]
      have : ¬(p < n ∧ start ≤ p ∧ step ∣ (p - start)) := by
        rintro ⟨h1, h2, -⟩
        omega
      simp [this]

/-- Count of a position in the positions of one bucket. -/
theorem bucketPositions_count (p n B b : Nat) (hB : 1 ≤ B)
    (hn : n ≤ maxSize) :
    (bucketPositions b n B).count p =
      if p < n ∧ b ≤ p ∧ B ∣ (p - b) then 1 else 0 := by
  have hnB : n ≤ n * B := Nat.le_mul_of_pos_right n hB
  exact strided_count p B hB n b n hn (by omega)

/-- Membership in one bucket's positions: exactly the positions
`b + k * B` below `n`. -/
theorem bucketPositions_mem (p n B b : Nat) (hB : 1 ≤ B)
    (hn : n ≤ maxSize) :
    p ∈ bucketPositions b n B ↔ (∃ k, p = b + k * B) ∧ p < n := by
  rw [← List.count_pos_iff, bucketPositions_count p n B b hB hn]
  constructor
  · intro h
    by_cases hc : p < n ∧ b ≤ p ∧ B ∣ (p - b)
    · obtain ⟨h1, h2, k, hk⟩ := hc
      refine ⟨⟨k, ?_⟩, h1⟩
      rw [Nat.mul_comm k B]
      omega
    · rw [if_neg hc] at h
      omega
  · rintro ⟨⟨k, hk⟩, h1⟩
    have hc : p < n ∧ b ≤ p ∧ B ∣ (p - b) :=
      ⟨h1, by omega, ⟨k, by rw [Nat.mul_comm B k]; omega⟩⟩
    rw [if_pos hc]
    omega

/-- Each position below `n` lies in exactly one bucket, its residue
modulo the bucket count. -/
theorem bucketPositions_partition (p n B : Nat) (hB : 1 ≤ B)
    (hn : n ≤ maxSize) (hp : p < n) :
    ∃! b, b < B ∧ p ∈ bucketPositions b n B := by
  refine ⟨p % B, ⟨Nat.mod_lt p hB, ?_⟩, ?_⟩
  · rw [bucketPositions_mem p n B (p % B) hB hn]
    exact ⟨⟨p / B, by rw [Nat.mul_comm]; exact (Nat.mod_add_div p B).symm⟩, hp⟩
  · rintro b ⟨hbB, hmem⟩
    rw [bucketPositions_mem p n B b hB hn] at hmem
    obtain ⟨⟨k, hk⟩, -⟩ := hmem
    subst hk
    rw [Nat.mul_comm, Nat.add_mul_mod_self_left]
    exact (Nat.mod_eq_of_lt hbB).symm

/-- Total count of a position over the first `m` buckets. -/
theorem buckets_count_all (p n B : Nat) (hB : 1 ≤ B) (hn : n ≤ maxSize) :
    ∀ m, m ≤ B →
      ((List.range m).flatMap (fun b => bucketPositions b n B)).count p =
        if p < n ∧ p % B < m then 1 else 0 := by
  intro m
  induction m with
  | zero => simp
  | succ m ih =>
    intro hm
    rw [List.range_succ, List.flatMap_append, List.count_append,
      ih (by omega)]
    simp only [List.flatMap_cons, List.flatMap_nil, List.append_nil]
    rw [bucketPositions_count p n B m hB hn]
    have hiff : (p < n ∧ m ≤ p ∧ B ∣ (p - m)) ↔ (p < n ∧ p % B = m) := by
      constructor
      · rintro ⟨h1, h2, k, hk⟩
        refine ⟨h1, ?_⟩
        have hpe : p = m + B * k := by omega
        subst hpe
        rw [Nat.add_mul_mod_self_left]
        exact Nat.mod_eq_of_lt (by omega)
      · rintro ⟨h1, h2⟩
        have hle : p % B ≤ p := Nat.mod_le p B
        refine ⟨h1, by omega, ?_⟩
        have := Nat.mod_add_div p B
        exact ⟨p / B, by omega⟩
    rw [if_congr hiff rfl rfl]
    by_cases h1 : p < n
    · by_cases h3 : p % B < m
      · rw [if_pos (⟨h1, h3⟩ : p < n ∧ p % B < m),
          if_neg (show ¬(p < n ∧ p % B = m) by omega),
          if_pos (show p < n ∧ p % B < m + 1 by omega)]
      · by_cases h2 : p % B = m
        · rw [if_neg (show ¬(p < n ∧ p % B < m) by omega),
            if_pos (⟨h1, h2⟩ : p < n ∧ p % B = m),
            if_pos (show p < n ∧ p % B < m + 1 by omega)]
        · rw [if_neg (show ¬(p < n ∧ p % B < m) by omega),
            if_neg (show ¬(p < n ∧ p % B = m) by omega),
            if_neg (show ¬(p < n ∧ p % B < m + 1) by omega)]
    · rw [if_neg (show ¬(p < n ∧ p % B < m) by omega),
        if_neg (show ¬(p < n ∧ p % B = m) by omega),
        if_neg (show ¬(p < n ∧ p % B < m + 1) by omega)]

/-! ## Claims -/

/-- C1: hash-table chain-head consistency.  After `store(k, v)` returns,
`find(k)` returns `v`; after a subsequent `store(k, v2)`, `find(k)` returns
`v2` — `find` returns the most recently stored row for the key, because
`store` prepends to the bucket chain head. -/
theorem claim_C1 (t : SlabTable) (k v v2 : Nat) :
    (t.store k v).2.find k = some v ∧
    ((t.store k v).2.store k v2).2.find k = some v2 :=
  ⟨find_store t k v, find_store (t.store k v).2 k v2⟩

/-- C9: duplicate tolerance and unlink order.  After storing two values
under the same key, chain traversal yields both in reverse insertion
order; `unlink(key)` removes exactly the most recently stored one, after
which `find(key)` returns the earlier value. -/
theorem claim_C9 (B k v1 v2 : Nat) :
    ((((SlabTable.empty B).store k v1).2.store k v2).2.chainValues k =
      [v2, v1]) ∧
    (((((SlabTable.empty B).store k v1).2.store k v2).2.unlink k).1 =
      true) ∧
    (((((SlabTable.empty B).store k v1).2.store k v2).2.unlink k).2.find k =
      some v1) := by
  simp [SlabTable.store, SlabTable.find, SlabTable.findLoop,
    SlabTable.readBucketValue, SlabTable.bucketIndex, SlabTable.rowAt,
    SlabTable.chainValues, SlabTable.chainLoop, SlabTable.unlink,
    SlabTable.empty, Function.update]

/-- C5 (amended): spend/unspend symmetry holds when the output was unspent
before the first spend.  For an outpoint satisfying the spend
preconditions whose output carries the `not_spent` sentinel, `spend(p, h)`
followed by `spend(p, not_spent)` restores the output (the
`spender_height` field in particular) to its pre-spend value. -/
theorem claim_C5 (db : TxDb) (p : OutPoint) (h : Nat) (r : TxRecord)
    (o : TxOutput)
    (hnull : ¬p.isNull)
    (hfind : db.findRec p.hash = some r)
    (hstate : r.state = TxState.confirmed)
    (hheight : r.height ≤ h)
    (hh32 : r.height ≤ maxUint32)
    (hout : r.outputs[p.index]? = some o)
    (hunspent : o.spenderHeight = maxUint32) :
    (((db.spend p h).2.spend p maxUint32).2.findRec p.hash).bind
      (fun r2 => r2.outputs[p.index]?) = some o := by
  have hidx : p.index < r.outputs.length := by
    by_contra hge
    rw [List.getElem?_eq_none (Nat.le_of_not_lt hge)] at hout
    cases hout
  rw [spend_success db p h r o hnull hfind hstate hheight hout]
  set c1 := (if h ≠ maxUint32 then db.cacheRemove p else db).cache with hc1
  set f1 : TxRecord → TxRecord := fun r0 =>
    { r0 with outputs := r0.outputs.set p.index ⟨h, o.value⟩ } with hf1
  have hfind1 : ∀ c, TxDb.findRec ⟨updateFirstRec db.records p.hash f1, c⟩
      p.hash = some (f1 r) := by
    intro c
    rw [findRec_updateFirstRec]
    have hbase : TxDb.findRec ⟨db.records, c⟩ p.hash = some r := hfind
    rw [hbase]
    rfl
  have hout1 : (f1 r).outputs[p.index]? = some ⟨h, o.value⟩ := by
    simp [hf1, List.getElem?_set_self, hidx]
  rw [spend_success _ p maxUint32 (f1 r) ⟨h, o.value⟩ hnull (hfind1 _)
    (by simp [hf1, hstate]) (by simp [hf1]; exact hh32) hout1]
  rw [findRec_updateFirstRec]
  rw [hfind1 _]
  simp [hf1, List.getElem?_set_self, hidx, List.set_set]
  obtain ⟨os, ov⟩ := o
  subst hunspent
  rfl

/-- C5 witness: a concrete unspent confirmed output spent at height 12 and
then unspent is restored. -/
theorem claim_C5_witness :
    ((((TxDb.mk [(42, ⟨10, 0, TxState.confirmed, [⟨maxUint32, 50⟩]⟩)]
        []).spend ⟨42, 0⟩ 12).2.spend ⟨42, 0⟩ maxUint32).2.findRec 42).bind
      (fun r2 => r2.outputs[(0 : Nat)]?) = some ⟨maxUint32, 50⟩ :=
  claim_C5 (TxDb.mk [(42, ⟨10, 0, TxState.confirmed, [⟨maxUint32, 50⟩]⟩)] [])
    ⟨42, 0⟩ 12 ⟨10, 0, TxState.confirmed, [⟨maxUint32, 50⟩]⟩ ⟨maxUint32, 50⟩
    (by decide) (by decide) (by decide) (by decide) (by decide) (by decide)
    (by decide)

/-- C5 counterexample: for an output that was already spent (spender
height 5), `spend(p, 12)` followed by `spend(p, not_spent)` leaves the
field at `not_spent`, not at its pre-spend value 5, although the claim's
preconditions (confirmed target at height at or below the spender height,
index in range) hold. -/
theorem claim_C5_counterexample :
    (TxDb.findRec (TxDb.mk
        [(42, ⟨10, 0, TxState.confirmed, [⟨maxUint32, 50⟩, ⟨5, 60⟩]⟩)] [])
        42).map TxRecord.state = some TxState.confirmed ∧
    ((((TxDb.mk [(42, ⟨10, 0, TxState.confirmed,
        [⟨maxUint32, 50⟩, ⟨5, 60⟩]⟩)] []).spend ⟨42, 1⟩ 12).2.spend
        ⟨42, 1⟩ maxUint32).2.findRec 42).bind
      (fun r2 => (r2.outputs[(1 : Nat)]?).map TxOutput.spenderHeight) =
        some maxUint32 ∧
    maxUint32 ≠ 5 := by
  refine ⟨by decide, by decide, by decide⟩

/-- C10: null-outpoint spend is a no-op success.  For every spender
height, `spend` of a null outpoint (the coinbase previous-output sentinel)
returns true and modifies neither the transaction records nor the
unspent-output cache. -/
theorem claim_C10 (db : TxDb) (p : OutPoint) (sh : Nat) (h : p.isNull) :
    db.spend p sh = (true, db) := by
  simp [TxDb.spend, h]

/-- C10 witness: the null outpoint at a concrete state and height. -/
theorem claim_C10_witness :
    (TxDb.mk [(42, ⟨10, 0, TxState.confirmed, [⟨maxUint32, 50⟩]⟩)]
        []).spend ⟨0, maxUint32⟩ 7 =
      (true, TxDb.mk [(42, ⟨10, 0, TxState.confirmed, [⟨maxUint32, 50⟩]⟩)]
        []) :=
  claim_C10 _ ⟨0, maxUint32⟩ 7 (by decide)

/-- C2 (amended): indexed-state confirmation polarity in `get_output`.
The source treats an indexed record as confirmed exactly when the fork
height is not `max_size_t` (the same `fork_height != max` polarity as
`is_spent`), so a finite-fork-height query of an indexed transaction's
output returns true (populated), not false. -/
theorem claim_C2 (db : TxDb) (p : OutPoint) (fork : Nat) (r : TxRecord)
    (hnull : ¬p.isNull)
    (hcache : db.cachePopulate p fork = false)
    (hfind : db.findRec p.hash = some r)
    (hstate : r.state = TxState.indexed)
    (hheight : r.height ≠ 0)
    (hfork : fork ≠ maxSize)
    (hidx : p.index < r.outputs.length) :
    (∀ h2 f2, getOutputConfirmed TxState.indexed h2 f2 = true ↔
      f2 ≠ maxSize) ∧
    db.getOutput p fork = true := by
  constructor
  · intro h2 f2
    simp [getOutputConfirmed]
  · simp [TxDb.getOutput, hnull, hcache, hfind, hstate, hheight, hfork,
      getOutputConfirmed, List.getElem?_eq_getElem hidx]

/-- C2 witness: a concrete indexed record queried at the finite fork
height 100 populates. -/
theorem claim_C2_witness :
    (∀ h2 f2, getOutputConfirmed TxState.indexed h2 f2 = true ↔
      f2 ≠ maxSize) ∧
    (TxDb.mk [(5, ⟨1, maxUint16, TxState.indexed, [⟨maxUint32, 9⟩]⟩)]
      []).getOutput ⟨5, 0⟩ 100 = true :=
  claim_C2 (TxDb.mk [(5, ⟨1, maxUint16, TxState.indexed, [⟨maxUint32, 9⟩]⟩)]
      []) ⟨5, 0⟩ 100 ⟨1, maxUint16, TxState.indexed, [⟨maxUint32, 9⟩]⟩
    (by decide) (by decide) (by decide) (by decide) (by decide) (by decide)
    (by decide)

/-- C2 counterexample: the claim predicts that a finite-fork-height query
of an indexed transaction's output returns false; at a concrete indexed
record and fork height 100 the code returns true. -/
theorem claim_C2_counterexample :
    (TxDb.findRec (TxDb.mk
        [(5, ⟨1, maxUint16, TxState.indexed, [⟨maxUint32, 9⟩]⟩)] [])
        5).map TxRecord.state = some TxState.indexed ∧
    (100 : Nat) ≠ maxSize ∧
    (TxDb.mk [(5, ⟨1, maxUint16, TxState.indexed, [⟨maxUint32, 9⟩]⟩)]
      []).getOutput ⟨5, 0⟩ 100 = true := by
  refine ⟨by decide, by decide, by decide⟩

/-- C3 (amended): genesis immutability holds on cache misses.  For every
outpoint whose transaction record is stored at height 0 and every fork
height, `get_output` returns false provided the unspent-output cache does
not hit for that outpoint; a cache hit short-circuits before the genesis
rule and returns true. -/
theorem claim_C3 (db : TxDb) (p : OutPoint) (fork : Nat) (r : TxRecord)
    (hcache : db.cachePopulate p fork = false)
    (hfind : db.findRec p.hash = some r)
    (hheight : r.height = 0) :
    db.getOutput p fork = false := by
  by_cases hnull : p.isNull
  · simp [TxDb.getOutput, hnull]
  · simp [TxDb.getOutput, hnull, hcache, hfind, hheight]

/-- C3 witness: with an empty cache, the stored genesis coinbase output is
not populated at any of two representative fork heights. -/
theorem claim_C3_witness :
    (TxDb.mk [(7, ⟨0, 0, TxState.confirmed, [⟨maxUint32, 50⟩]⟩)]
      []).getOutput ⟨7, 0⟩ maxSize = false :=
  claim_C3 (TxDb.mk [(7, ⟨0, 0, TxState.confirmed, [⟨maxUint32, 50⟩]⟩)] [])
    ⟨7, 0⟩ maxSize ⟨0, 0, TxState.confirmed, [⟨maxUint32, 50⟩]⟩
    (by decide) (by decide) (by decide)

/-- C3 counterexample: storing the genesis coinbase (height 0, confirmed)
puts its outputs into the unspent-output cache, and `get_output` then
returns true at every fork height — the cache consultation precedes the
genesis rule, so the claim's cache-hit case fails. -/
theorem claim_C3_counterexample :
    let genesis : Tx := ⟨7, [50], [⟨0, maxUint32⟩]⟩
    let db := (TxDb.storeTx ⟨[], []⟩ genesis 0 0 TxState.confirmed).2
    db.findRec 7 = some ⟨0, 0, TxState.confirmed, [⟨maxUint32, 50⟩]⟩ ∧
    db.getOutput ⟨7, 0⟩ maxSize = true ∧ db.getOutput ⟨7, 0⟩ 10 = true := by
  decide

/-- C4: unspent-duplicate rejection.  `push(tx, forks)` returns
`unspent_duplicate` exactly when a transaction with the same hash already
exists in the store and is not fully spent, and in that case the store is
unchanged (the preflight check precedes `begin_write` and the store
call). -/
theorem claim_C4 (db : DataBase) (tx : Tx) (forks : Nat) :
    ((db.pushTx tx forks).1 = DbCode.unspent_duplicate ↔
      ∃ r, db.txdb.findRec tx.hash = some r ∧ r.isSpent maxSize = false) ∧
    ((db.pushTx tx forks).1 = DbCode.unspent_duplicate →
      (db.pushTx tx forks).2 = db) := by
  rcases hf : db.txdb.findRec tx.hash with _ | r
  · simp [DataBase.pushTx, DataBase.verifyPushTx, hf]
  · by_cases hs : r.isSpent maxSize
    · simp [DataBase.pushTx, DataBase.verifyPushTx, hf, hs]
    · simp [DataBase.pushTx, DataBase.verifyPushTx, hf, hs]

/-- C4 witness: a concrete store holding an unspent confirmed duplicate of
the pushed transaction rejects the push and is unchanged. -/
theorem claim_C4_witness :
    (DataBase.pushTx ⟨⟨[(9, ⟨100, 0, TxState.confirmed, [⟨maxUint32, 5⟩]⟩)],
        []⟩, [], [], false⟩ ⟨9, [5], []⟩ 7).1 = DbCode.unspent_duplicate ∧
    (DataBase.pushTx ⟨⟨[(9, ⟨100, 0, TxState.confirmed, [⟨maxUint32, 5⟩]⟩)],
        []⟩, [], [], false⟩ ⟨9, [5], []⟩ 7).2 =
      ⟨⟨[(9, ⟨100, 0, TxState.confirmed, [⟨maxUint32, 5⟩]⟩)], []⟩, [], [],
        false⟩ := by
  have h := claim_C4 ⟨⟨[(9, ⟨100, 0, TxState.confirmed, [⟨maxUint32, 5⟩]⟩)],
    []⟩, [], [], false⟩ ⟨9, [5], []⟩ 7
  have hdup := h.1.mpr
    ⟨⟨100, 0, TxState.confirmed, [⟨maxUint32, 5⟩]⟩, by decide, by decide⟩
  exact ⟨hdup, h.2 hdup⟩

/-- C7 (amended): a `pop(block, height)` or `pop(header, height)` call
whose height disagrees with the current top of the corresponding index
returns `operation_failed` (not `store_block_invalid_height`, which only
the push preflight uses) and leaves the store unchanged. -/
theorem claim_C7 (db : DataBase) (height : Nat) (blockIndex : Bool)
    (h : db.top blockIndex ≠ some height) :
    db.pop height blockIndex = (DbCode.operation_failed, db) := by
  rcases ht : db.top blockIndex with _ | actual
  · simp [DataBase.pop, DataBase.verifyTop, ht]
  · have hne : actual ≠ height := by
      intro he
      exact h (ht.trans (congrArg some he))
    simp [DataBase.pop, DataBase.verifyTop, ht, hne]

/-- C7 witness: popping height 3 of a one-block chain (top 0) fails and
leaves the store unchanged, on both indexes. -/
theorem claim_C7_witness :
    DataBase.pop ⟨⟨[], []⟩, [⟨1, []⟩], [⟨1, []⟩], false⟩ 3 true =
      (DbCode.operation_failed, ⟨⟨[], []⟩, [⟨1, []⟩], [⟨1, []⟩], false⟩) ∧
    DataBase.pop ⟨⟨[], []⟩, [⟨1, []⟩], [⟨1, []⟩], false⟩ 3 false =
      (DbCode.operation_failed, ⟨⟨[], []⟩, [⟨1, []⟩], [⟨1, []⟩], false⟩) :=
  ⟨claim_C7 ⟨⟨[], []⟩, [⟨1, []⟩], [⟨1, []⟩], false⟩ 3 true (by decide),
    claim_C7 ⟨⟨[], []⟩, [⟨1, []⟩], [⟨1, []⟩], false⟩ 3 false (by decide)⟩

/-- C7 counterexample: the claim predicts `store_block_invalid_height`; at
a concrete disagreeing pop the code returns `operation_failed`, a
different code. -/
theorem claim_C7_counterexample :
    (DataBase.pop ⟨⟨[], []⟩, [⟨1, []⟩], [⟨1, []⟩], false⟩ 3 true).1 =
        DbCode.operation_failed ∧
    (DataBase.pop ⟨⟨[], []⟩, [⟨1, []⟩], [⟨1, []⟩], false⟩ 3 true).1 ≠
        DbCode.store_block_invalid_height := by
  refine ⟨by decide, by decide⟩

/-- C8 (amended): memory-mapped file growth.  When the requested size fits
the current mapping, `reserve` succeeds and leaves it unchanged; otherwise
it resizes the underlying file to `size * 3 / 2` rounded down (floor, in
size_t arithmetic), not up. -/
theorem claim_C8 (f : MMFile) (n : Nat) :
    (n ≤ f.size → f.reserve n = (true, f)) ∧
    (f.size < n → (f.reserve n).2.size = n * 3 % 2 ^ 64 / 2) := by
  constructor
  · intro h
    simp [MMFile.reserve, h]
  · intro h
    simp [MMFile.reserve, MMFile.resize, Nat.not_le.mpr h]

/-- C8 witness: a fitting request keeps the file; a growing request of 1
byte over an empty file truncates to 1 (floor of 3 halves). -/
theorem claim_C8_witness :
    (MMFile.reserve ⟨4⟩ 3 = (true, ⟨4⟩)) ∧
    ((MMFile.reserve ⟨0⟩ 1).2.size = 1 * 3 % 2 ^ 64 / 2) :=
  ⟨(claim_C8 ⟨4⟩ 3).1 (by decide), (claim_C8 ⟨0⟩ 1).2 (by decide)⟩

/-- C8 counterexample: the claim predicts growth to the ceiling of
`n * 3 / 2`; reserving 1 byte over an empty file resizes to 1, the floor,
not to 2, the ceiling. -/
theorem claim_C8_counterexample :
    (0 : Nat) < 1 ∧ ((MMFile.mk 0).reserve 1).2.size = 1 ∧
    ((MMFile.mk 0).reserve 1).2.size ≠ (1 * 3 + 1) / 2 := by
  refine ⟨by decide, by decide, by decide⟩

/-- C6: parallel transaction push partition.  For a block of `n`
transactions pushed with `B = min(threads, n)` buckets: bucket `b`
processes exactly the positions `b, b + B, b + 2B, ...` below `n`; the
buckets partition the positions below `n`; in the push trace every
position is stored exactly once (with the transaction at that original
block position); and the block's header record is stored only after all
bucket stores, as the last event. -/
theorem claim_C6 (n threads : Nat) (hn : 0 < n) (ht : 0 < threads)
    (hmax : n ≤ maxSize) :
    (∀ b p, b < min threads n →
      (p ∈ bucketPositions b n (min threads n) ↔
        (∃ k, p = b + k * (min threads n)) ∧ p < n)) ∧
    (∀ p, p < n →
      ∃! b, b < min threads n ∧ p ∈ bucketPositions b n (min threads n)) ∧
    (∀ p, (doPushTrace n threads).count (PushEvent.txStore p) =
      if p < n then 1 else 0) ∧
    (doPushTrace n threads).getLast? = some PushEvent.headerStore ∧
    PushEvent.headerStore ∉ (doPushTrace n threads).dropLast := by
  have hB : 1 ≤ min threads n := by omega
  refine ⟨?_, ?_, ?_, ?_, ?_⟩
  · intro b p hb
    exact bucketPositions_mem p n (min threads n) b hB hmax
  · intro p hp
    exact bucketPositions_partition p n (min threads n) hB hmax hp
  · intro p
    have hinj : Function.Injective PushEvent.txStore := by
      intro a b hab
      cases hab
      rfl
    rw [doPushTrace]
    rw [List.count_append]
    have h1 : (List.range (min threads n)).flatMap
        (fun b => (bucketPositions b n (min threads n)).map
          PushEvent.txStore) =
        ((List.range (min threads n)).flatMap
          (fun b => bucketPositions b n (min threads n))).map
          PushEvent.txStore := by
      rw [List.map_flatMap]
    rw [h1, List.count_map_of_injective _ _ hinj,
      buckets_count_all p n (min threads n) hB hmax (min threads n)
        (le_refl _)]
    have h2 : ([PushEvent.headerStore].count (PushEvent.txStore p)) = 0 := by
      simp
    rw [h2]
    have h3 : p % (min threads n) < min threads n := Nat.mod_lt p hB
    by_cases hp : p < n
    · rw [if_pos ⟨hp, h3⟩, if_pos hp]
    · rw [if_neg (by omega), if_neg hp]
  · rw [doPushTrace]
    exact List.getLast?_concat _
  · rw [doPushTrace]
    rw [List.dropLast_concat]
    intro hmem
    rw [List.mem_flatMap] at hmem
    obtain ⟨b, -, hmem2⟩ := hmem
    rw [List.mem_map] at hmem2
    obtain ⟨a, -, heq⟩ := hmem2
    cases heq

/-- C6 witness: a block of 5 transactions with 2 threads, checking the
position characterization of bucket 1 at position 3. -/
theorem claim_C6_witness :
    0 < 5 ∧ 0 < 2 ∧ 5 ≤ maxSize ∧
    (3 ∈ bucketPositions 1 5 (min 2 5) ↔
      (∃ k, 3 = 1 + k * min 2 5) ∧ 3 < 5) :=
  ⟨by decide, by decide, by decide,
    (claim_C6 5 2 (by decide) (by decide) (by decide)).1 1 3 (by decide)⟩

end LibbitcoinDb
